/-
A shallow embedding of the blog-post store of dvaumoron/puzzleblogserver.

The repository holds two revisions of the `blogserver` package:
  * the one embedded in `src/server.go` (the newer one: the title filter is
    part of the count, the find call carries the pagination options, the
    create response carries the assigned id, `%` is replaced before the
    regex is built);
  * `src/blogserver/blogserver.go` (the older one: the count runs before the
    title filter is appended, the find call carries no options,
    `convertToContents` returns an empty slice, the create response carries
    no id, `%` is not replaced).
Both are embedded below; definitions of the older revision carry the suffix
`Old`.  The MongoDB driver is an external collaborator: its calls are
modelled as pure functions over a typed store (a list of posts), with
injected fault outcomes where the code inspects driver errors.
-/
import Mathlib

namespace PuzzleBlog

/-- A stored blog post document, as `CreatePost` writes it: the fields
`blogId`, `postId`, `userId`, `title`, `text` of the inserted `bson.M`. -/
structure Post where
  blogId : Nat
  postId : Nat
  userId : Nat
  title : String
  text : String
deriving DecidableEq, Repr

/-- The `pb.Content` response entity: `PostId`, `UserId`, `Title`, `Text`,
`CreatedAt` (seconds). -/
structure Content where
  postId : Nat
  userId : Nat
  title : String
  text : String
  createdAt : Nat
deriving DecidableEq, Repr

/-- The `pb.Response` message: `Success` and `Id` (an unset `Id` is the
protobuf default 0). -/
structure Response where
  success : Bool
  id : Nat
deriving DecidableEq, Repr

/-- The `pb.CreateRequest` message. -/
structure CreateRequest where
  blogId : Nat
  userId : Nat
  title : String
  text : String
deriving DecidableEq, Repr

/-- The `pb.SearchRequest` message; `stop` is the request's `End` field
(`end` is reserved in Lean). -/
structure SearchRequest where
  blogId : Nat
  filter : String
  start : Nat
  stop : Nat
deriving DecidableEq, Repr

/-- The caller-visible error values: `errInternal` and `errNoPost` of the
source. -/
inductive BlogError where
  | internal
  | noPost
deriving DecidableEq, Repr

/-! ## The maximum-postId query of CreatePost

`optsMaxPostId` sorts by `postId` descending and projects the identifier
field; `FindOne` then yields the first document of that order.  The sort the
engine performs is modelled with insertion sort under the descending
relation on `postId`. -/

/-- The descending order on posts the `postId: -1` sort key asks for. -/
def postDesc (a b : Post) : Prop := b.postId ≤ a.postId

instance : DecidableRel postDesc := fun a b => Nat.decLe b.postId a.postId

instance : IsTotal Post postDesc := ⟨fun a b => Nat.le_total b.postId a.postId⟩

instance : IsTrans Post postDesc :=
  ⟨fun _ _ _ h1 h2 => Nat.le_trans h2 h1⟩

/-- The store's posts of one blog sorted by `postId` descending. -/
def sortByPostIdDesc (l : List Post) : List Post := List.insertionSort postDesc l

/-- `FindOne` with `optsMaxPostId`: the single post of `blogId` with the
maximum `postId`, projected to its identifier; `none` is the driver's
`ErrNoDocuments`. -/
def findMaxPostId (store : List Post) (b : Nat) : Option Nat :=
  ((sortByPostIdDesc (store.filter (fun p => p.blogId == b))).head?).map Post.postId

/-- The candidate identifier of the first loop iteration: `newPostId` starts
at 1 and becomes `found maximum + 1` when the query finds a document. -/
def nextPostIdCandidate (store : List Post) (b : Nat) : Nat :=
  match findMaxPostId store b with
  | none => 1
  | some m => m + 1

/-! ## The CreatePost retry loop

The loop's interactions with the store are adversarial (concurrent callers
may change the store between calls), so each iteration's two driver calls
are modelled by injected outcomes: what `FindOne` answered and how
`InsertOne` ended. -/

/-- What the maximum-id `FindOne` call answered: a document with that
maximum, `ErrNoDocuments`, or another driver error. -/
inductive FindOutcome where
  | found (maxId : Nat)
  | noDocs
  | failure
deriving DecidableEq, Repr

/-- How the `InsertOne` call ended: inserted, a duplicate-key violation, or
another driver error. -/
inductive InsertOutcome where
  | inserted
  | dupKey
  | failure
deriving DecidableEq, Repr

/-- One iteration's pair of driver outcomes. -/
structure Attempt where
  find : FindOutcome
  insert : InsertOutcome
deriving DecidableEq, Repr

/-- What a CreatePost run produced: the response together with the document
the successful `InsertOne` wrote, an internal error, or the end of the
observed trace with the loop still running. -/
inductive CreateOutcome where
  | success (resp : Response) (inserted : Post)
  | internalFailure
  | outOfTrace
deriving DecidableEq, Repr

/-- The document `InsertOne` writes: the request's fields with
`post[postIdKey] = newPostId`. -/
def mkPost (req : CreateRequest) (newPostId : Nat) : Post :=
  ⟨req.blogId, newPostId, req.userId, req.title, req.text⟩

/-- The `GeneratePostIdStep`/`CreatePostStep` loop of `src/server.go`:
`newPostId` keeps its previous value (initially 1) when the query answers
`ErrNoDocuments`, becomes `maxId + 1` when it finds a document; a
duplicate-key insert failure jumps back to the query; any other driver
error returns `errInternal`; a successful insert returns
`Response{Success: true, Id: newPostId}`. -/
def createPostLoop (req : CreateRequest) : Nat → List Attempt → CreateOutcome
  | _, [] => .outOfTrace
  | prevId, a :: rest =>
    match a.find with
    | .failure => .internalFailure
    | .noDocs =>
      match a.insert with
      | .inserted => .success ⟨true, prevId⟩ (mkPost req prevId)
      | .dupKey => createPostLoop req prevId rest
      | .failure => .internalFailure
    | .found m =>
      match a.insert with
      | .inserted => .success ⟨true, m + 1⟩ (mkPost req (m + 1))
      | .dupKey => createPostLoop req (m + 1) rest
      | .failure => .internalFailure

/-- `CreatePost` of `src/server.go`: the loop entered with `newPostId = 1`. -/
def createPost (req : CreateRequest) (trace : List Attempt) : CreateOutcome :=
  createPostLoop req 1 trace

/-- The same loop as `src/blogserver/blogserver.go` runs it: identical
control flow, but the success response is `Response{Success: true}`, whose
`Id` field is the protobuf default 0. -/
def createPostLoopOld (req : CreateRequest) : Nat → List Attempt → CreateOutcome
  | _, [] => .outOfTrace
  | prevId, a :: rest =>
    match a.find with
    | .failure => .internalFailure
    | .noDocs =>
      match a.insert with
      | .inserted => .success ⟨true, 0⟩ (mkPost req prevId)
      | .dupKey => createPostLoopOld req prevId rest
      | .failure => .internalFailure
    | .found m =>
      match a.insert with
      | .inserted => .success ⟨true, 0⟩ (mkPost req (m + 1))
      | .dupKey => createPostLoopOld req (m + 1) rest
      | .failure => .internalFailure

/-- `CreatePost` of `src/blogserver/blogserver.go`. -/
def createPostOld (req : CreateRequest) (trace : List Attempt) : CreateOutcome :=
  createPostLoopOld req 1 trace

/-- The find outcome a quiescent store answers: `findMaxPostId` as a
`FindOutcome`. -/
def storeFind (store : List Post) (b : Nat) : FindOutcome :=
  match findMaxPostId store b with
  | none => .noDocs
  | some m => .found m

/-- The claim's re-derivation rule for a retry: the candidate the
identifier-generation step computes from a fresh query's answer alone
(1 when no document exists, found maximum + 1 otherwise). -/
def specFreshCandidate : FindOutcome → Nat
  | .noDocs => 1
  | .found m => m + 1
  | .failure => 0

/-! ## The title filter's regex normalization

Go indexes strings by byte; a string is modelled as the list of its bytes,
each byte written as a character.  `%`, `.` and `*` are single bytes, so on
the patterns at issue byte positions and list positions agree. -/

/-- The match-any-sequence token `.*`. -/
def tok : List Char := ['.', '*']

/-- `strings.ReplaceAll(filter, "%", ".*")`: the pattern is one byte, so
every `%` is replaced independently. -/
def replacePercent : List Char → List Char
  | [] => []
  | c :: rest => (if c = '%' then tok else [c]) ++ replacePercent rest

/-- `strings.Index(s, ".*")`: the index of the first occurrence of the
token, or -1 (an occurrence at position `i` is the token being a prefix of
the list from `i` on). -/
def indexOfTok : List Char → Int
  | [] => -1
  | c :: rest =>
    if tok.isPrefixOf (c :: rest) then 0
    else if indexOfTok rest = -1 then -1 else indexOfTok rest + 1

/-- `strings.LastIndex(s, ".*")`: the index of the last occurrence of the
token, or -1 (an occurrence inside the tail is later than one at the
head). -/
def lastIndexOfTok : List Char → Int
  | [] => -1
  | c :: rest =>
    if lastIndexOfTok rest ≠ -1 then lastIndexOfTok rest + 1
    else if tok.isPrefixOf (c :: rest) then 0 else -1

/-- Does the list end with the token, i.e. are its last two bytes `.` and
`*`? -/
def endsTok : List Char → Bool
  | [] => false
  | [_] => false
  | [c, d] => c == '.' && d == '*'
  | _ :: c :: d :: rest => endsTok (c :: d :: rest)

/-- `buildRegexFilter` of `src/server.go`: replace every `%` with `.*`,
prepend `.*` when the first occurrence of `.*` is not at index 0, append
`.*` when the last occurrence of `.*` is not at index `len - 2`. -/
def buildRegexFilter (f : List Char) : List Char :=
  let g := replacePercent f
  (if indexOfTok g ≠ 0 then tok else []) ++ g ++
    (if lastIndexOfTok g ≠ (g.length : Int) - 2 then tok else [])

/-- `buildFilterRegex` of `src/blogserver/blogserver.go`: the same
prepend/append checks, with no `%` replacement. -/
def buildFilterRegex (f : List Char) : List Char :=
  (if indexOfTok f ≠ 0 then tok else []) ++ f ++
    (if lastIndexOfTok f ≠ (f.length : Int) - 2 then tok else [])

/-- The claim's normalization rule, word for word: replace every `%` with
the token, prepend the token when the result does not start with it, append
the token when the result does not end with it. -/
def claimNormalize (f : List Char) : List Char :=
  let g := replacePercent f
  (if tok.isPrefixOf g then [] else tok) ++ g ++
    (if endsTok g then [] else tok)

/-- The amended normalization rule: as the claim, except that the token is
appended only when the replaced pattern has at least two bytes (the code
compares the last-occurrence index with `len - 2`, and both are -1 for a
one-byte pattern with no token). -/
def buildRegexFilterSpec (f : List Char) : List Char :=
  let g := replacePercent f
  (if tok.isPrefixOf g then [] else tok) ++ g ++
    (if 2 ≤ g.length ∧ endsTok g = false then tok else [])

/-! ## The storage engine's pattern predicate

Modelled from the spec: the engine's "match any sequence" pattern predicate
(`$regex`), for patterns made of literal bytes and the `.*` token — the
only shapes the normalizers emit from literal-and-`%` input.  `likeMatchA`
is the anchored match; `mongoRegexMatch` matches anywhere in the title, as
`$regex` does, by padding the pattern with a token on both sides. -/
def likeStar (f : List Char → Bool) : List Char → Bool
  | [] => f []
  | c :: s => f (c :: s) || likeStar f s

def likeMatchA : List Char → List Char → Bool
  | [], s => s.isEmpty
  | '.' :: '*' :: ps, s => likeStar (likeMatchA ps) s
  | c :: ps, s =>
    match s with
    | [] => false
    | d :: s' => c == d && likeMatchA ps s'

/-- Modelled from the spec: the engine's unanchored `$regex` match of a
built pattern against a title. -/
def mongoRegexMatch (pat : List Char) (s : List Char) : Bool :=
  likeMatchA (tok ++ pat ++ tok) s

/-! ## GetPosts

The find/count collaborator is modelled from the spec over the typed store:
count-matching counts the matching posts, find-with-sort/skip/limit sorts
them by `postId` descending, skips `skip` of them and returns at most
`limit` of them (pagination is half-open `[start, end)`).  The engine's
regex predicate stays a parameter `matcher` of the operation. -/

/-- The `Contents` reply: the converted page and the total count. -/
structure Contents where
  list : List Content
  total : Nat
deriving DecidableEq, Repr

/-- The conversion `GetPosts` of `src/server.go` applies to each returned
document; the creation date lives in the engine-assigned record id, which
the typed store does not carry, so `createdAt` is 0 here. -/
def postToContent (p : Post) : Content :=
  ⟨p.postId, p.userId, p.title, p.text, 0⟩

/-- `convertToContents` of `src/blogserver/blogserver.go`: a slice of
capacity `len(posts)` is allocated and returned with nothing appended. -/
def convertToContents (posts : List α) : List Content :=
  let _ := posts
  []

/-- The `filters` document of `GetPosts` in `src/server.go` as a predicate:
`blogId` equality, plus the `$regex` condition on `title` when the request's
filter is non-empty. -/
def matchPred (matcher : List Char → List Char → Bool) (req : SearchRequest)
    (p : Post) : Bool :=
  p.blogId == req.blogId &&
    (req.filter == "" || matcher (buildRegexFilter req.filter.data) p.title.data)

/-- `GetPosts` of `src/server.go`: the regex condition is part of `filters`
before `CountDocuments` runs, and `Find` carries the sort/skip/limit
options (`skip = Start`, `limit = End - Start`). -/
def getPosts (matcher : List Char → List Char → Bool) (store : List Post)
    (req : SearchRequest) : Contents :=
  let pred := matchPred matcher req
  let total := (store.filter pred).length
  let limit : Int := (req.stop : Int) - (req.start : Int)
  let page := ((sortByPostIdDesc (store.filter pred)).drop req.start).take limit.toNat
  ⟨page.map postToContent, total⟩

/-- The old filter predicate: as `matchPred`, with the old
`buildFilterRegex`. -/
def matchPredOld (matcher : List Char → List Char → Bool) (req : SearchRequest)
    (p : Post) : Bool :=
  p.blogId == req.blogId &&
    (req.filter == "" || matcher (buildFilterRegex req.filter.data) p.title.data)

/-- `GetPosts` of `src/blogserver/blogserver.go`: `CountDocuments` runs on
the `blogId`-only filter before the title condition is appended, `Find` is
called without the pagination options, and the fetched documents go through
`convertToContents`. -/
def getPostsOld (matcher : List Char → List Char → Bool) (store : List Post)
    (req : SearchRequest) : Contents :=
  let total := (store.filter (fun p => p.blogId == req.blogId)).length
  let results := store.filter (matchPredOld matcher req)
  ⟨convertToContents results, total⟩

/-! ## GetPost -/

/-- How the driver calls of `GetPost` can fail: `mongo.Connect` failing, or
`FindOne(...).Decode` failing with anything other than `ErrNoDocuments`
(query or decode failure).  `ok` means the calls reach the store and answer
from it; `ErrNoDocuments` is then the store holding no matching post. -/
inductive GetFault where
  | ok
  | connectFail
  | decodeFail
deriving DecidableEq, Repr

/-- `FindOne` by the compound key: the first stored post matching it. -/
def findByKey (store : List Post) (b p : Nat) : Option Post :=
  (store.filter (fun q => q.blogId == b && q.postId == p)).head?

/-- `GetPost`: a driver failure maps to `errInternal`; `ErrNoDocuments`
maps to `errNoPost`; a found document is converted and returned. -/
def getPost (store : List Post) (b p : Nat) : GetFault → Except BlogError Content
  | .connectFail => .error .internal
  | .decodeFail => .error .internal
  | .ok =>
    match findByKey store b p with
    | none => .error .noPost
    | some q => .ok (postToContent q)

/-! ## DeletePost -/

/-- How the driver calls of `DeletePost` can end: `ok` (the delete ran; zero
matches is still `ok`), `DeleteMany` failing with `ErrNoDocuments` (the one
error the code tolerates), `mongo.Connect` failing, or `DeleteMany` failing
with another error. -/
inductive DeleteFault where
  | ok
  | noDocsErr
  | connectFail
  | callFail
deriving DecidableEq, Repr

/-- `DeleteMany` by the compound key: every matching document is removed. -/
def deleteMany (store : List Post) (b p : Nat) : List Post :=
  store.filter (fun q => !(q.blogId == b && q.postId == p))

/-- `DeletePost`: `Response{Success: true}` unless the connect or the delete
fails with an error other than `ErrNoDocuments`, which maps to
`errInternal`.  The pair carries the store after the call. -/
def deletePost (store : List Post) (b p : Nat) :
    DeleteFault → Except BlogError (Response × List Post)
  | .connectFail => .error .internal
  | .callFail => .error .internal
  | .noDocsErr => .ok (⟨true, 0⟩, store)
  | .ok => .ok (⟨true, 0⟩, deleteMany store b p)

/-! ## The document level: convertToContent over raw bson documents -/

/-- A BSON value as the conversion code distinguishes them: the two integer
shapes `extractUint64` accepts, strings, the record id (carrying its
timestamp), and every other shape. -/
inductive BVal where
  | vInt32 (i : Int)
  | vInt64 (i : Int)
  | vString (s : String)
  | vObjectId (ts : Nat)
  | vOther
deriving DecidableEq, Repr

/-- A `bson.M` document: keys with values.  Go map indexing returns the
first (only) binding of a key, or nothing. -/
def Doc : Type := List (String × BVal)

/-- `post[key]`: the value bound to `key`, `none` when the field is absent. -/
def docGet (d : Doc) (k : String) : Option BVal :=
  (d.find? (fun kv => kv.1 == k)).map (fun kv => kv.2)

/-- `extractUint64` of `src/blogserver/blogserver.go` (and the
`mongoclient.ExtractUint64` the newer revision calls): an `int32` or
`int64` value cast to `uint64` (two's complement), anything else 0. -/
def extractUint64 : Option BVal → Nat
  | some (.vInt32 i) => (i % (2 ^ 64 : Int)).toNat
  | some (.vInt64 i) => (i % (2 ^ 64 : Int)).toNat
  | _ => 0

/-- The `title, _ := post[titleKey].(string)` type assertion: the string
value, or the empty string. -/
def asString : Option BVal → String
  | some (.vString s) => s
  | _ => ""

/-- The `id, _ := post[idKey].(primitive.ObjectID)` assertion followed by
`id.Timestamp().Unix()`: the record id's timestamp, or the zero id's 0. -/
def asObjectIdTs : Option BVal → Nat
  | some (.vObjectId ts) => ts
  | _ => 0

/-- `convertToContent`: each field of the reply entity from the document,
with the defaults above. -/
def convertToContent (post : Doc) : Content :=
  ⟨extractUint64 (docGet post "postId"), extractUint64 (docGet post "userId"),
   asString (docGet post "title"), asString (docGet post "text"),
   asObjectIdTs (docGet post "_id")⟩

/-- Is an optional BSON value a string? -/
def isStringVal : Option BVal → Bool
  | some (.vString _) => true
  | _ => false

/-- Is an optional BSON value of one of the integer shapes `extractUint64`
accepts? -/
def isIntVal : Option BVal → Bool
  | some (.vInt32 _) => true
  | some (.vInt64 _) => true
  | _ => false

/-! ## Helper lemmas -/

theorem asString_of_not_string (o : Option BVal) (h : isStringVal o = false) :
    asString o = "" := by
  cases o with
  | none => rfl
  | some v => cases v <;> first | rfl | exact absurd h (by simp [isStringVal])

theorem extractUint64_of_not_int (o : Option BVal) (h : isIntVal o = false) :
    extractUint64 o = 0 := by
  cases o with
  | none => rfl
  | some v => cases v <;> first | rfl | exact absurd h (by simp [isIntVal])

theorem findByKey_eq_none_iff (store : List Post) (b p : Nat) :
    findByKey store b p = none ↔ ∀ q ∈ store, ¬(q.blogId = b ∧ q.postId = p) := by
  simp only [findByKey, List.head?_eq_none_iff, List.filter_eq_nil_iff]
  constructor
  · intro h q hq hqk
    exact h q hq (by simp [hqk.1, hqk.2])
  · intro h q hq hqk
    simp only [Bool.and_eq_true, beq_iff_eq] at hqk
    exact h q hq hqk

/-! ## Claim theorems -/

/-- C7: on every `Get(blogId, postId)` call, a missing compound key yields
the not-found error `errNoPost`, distinct from `errInternal`, while a
connection, query or decode failure on the same call yields `errInternal`. -/
theorem getPost_notFound_vs_internal (store : List Post) (b p : Nat) :
    getPost store b p .connectFail = .error .internal
  ∧ getPost store b p .decodeFail = .error .internal
  ∧ (getPost store b p .ok = .error .noPost ↔ findByKey store b p = none)
  ∧ (findByKey store b p = none ↔ ∀ q ∈ store, ¬(q.blogId = b ∧ q.postId = p))
  ∧ (∀ q, findByKey store b p = some q →
      getPost store b p .ok = .ok (postToContent q))
  ∧ BlogError.noPost ≠ BlogError.internal := by
  refine ⟨rfl, rfl, ?_, findByKey_eq_none_iff store b p, ?_, by decide⟩
  · unfold getPost
    cases h : findByKey store b p <;> simp
  · intro q hq
    unfold getPost
    rw [hq]

/-- C8: `Delete(blogId, postId)` removes every document matching the
compound key and returns success even when zero documents matched (a
nonexistent post, or the same post twice in a row, both succeed); a storage
failure other than the nothing-found error yields `errInternal`. -/
theorem deletePost_removes_and_succeeds (store : List Post) (b p : Nat) :
    (∀ q, q ∈ deleteMany store b p ↔ q ∈ store ∧ ¬(q.blogId = b ∧ q.postId = p))
  ∧ deletePost store b p .ok = .ok (⟨true, 0⟩, deleteMany store b p)
  ∧ deletePost store b p .noDocsErr = .ok (⟨true, 0⟩, store)
  ∧ ((∀ q ∈ store, ¬(q.blogId = b ∧ q.postId = p)) → deleteMany store b p = store)
  ∧ deleteMany (deleteMany store b p) b p = deleteMany store b p
  ∧ deletePost (deleteMany store b p) b p .ok = .ok (⟨true, 0⟩, deleteMany store b p)
  ∧ deletePost store b p .connectFail = .error .internal
  ∧ deletePost store b p .callFail = .error .internal := by
  have hmem : ∀ q, q ∈ deleteMany store b p ↔
      q ∈ store ∧ ¬(q.blogId = b ∧ q.postId = p) := by
    intro q
    simp [deleteMany, List.mem_filter, -Bool.not_and]
  have hidem : deleteMany (deleteMany store b p) b p = deleteMany store b p := by
    unfold deleteMany
    rw [List.filter_filter]
    exact List.filter_congr (fun q _ => by cases h : (q.blogId == b && q.postId == p) <;> simp [h])
  refine ⟨hmem, rfl, rfl, ?_, hidem, by simp only [deletePost, hidem], rfl, rfl⟩
  · intro h
    apply List.filter_eq_self.mpr
    intro q hq
    have := h q hq
    simp only [Bool.not_eq_eq_eq_not, Bool.not_true, Bool.and_eq_false_iff, beq_eq_false_iff_ne]
    by_cases hb : q.blogId = b
    · exact Or.inr (fun hp => this ⟨hb, hp⟩)
    · exact Or.inl hb

/-- C9: converting a stored document to a response entity defaults an
absent or unexpectedly-typed field — empty string for `title` and `text`,
zero for `postId` and `userId` — and the conversion is total. -/
theorem convertToContent_defaults (d : Doc) :
    (isStringVal (docGet d "title") = false → (convertToContent d).title = "")
  ∧ (isStringVal (docGet d "text") = false → (convertToContent d).text = "")
  ∧ (isIntVal (docGet d "postId") = false → (convertToContent d).postId = 0)
  ∧ (isIntVal (docGet d "userId") = false → (convertToContent d).userId = 0)
  ∧ (docGet d "title" = none → (convertToContent d).title = "")
  ∧ (docGet d "postId" = none → (convertToContent d).postId = 0) := by
  refine ⟨fun h => asString_of_not_string _ h, fun h => asString_of_not_string _ h,
    fun h => extractUint64_of_not_int _ h, fun h => extractUint64_of_not_int _ h,
    fun h => ?_, fun h => ?_⟩
  · exact asString_of_not_string _ (by rw [h]; rfl)
  · exact extractUint64_of_not_int _ (by rw [h]; rfl)

/-- C6, counterexample: in `src/blogserver/blogserver.go` a successful
Create with an empty blog answers `Response{Success: true}` whose `Id` is
the protobuf default 0, while the inserted post's identifier is 1. -/
theorem createPostOld_id_cex :
    createPostOld ⟨7, 9, "t", "x"⟩ [⟨.noDocs, .inserted⟩]
      = .success ⟨true, 0⟩ (mkPost ⟨7, 9, "t", "x"⟩ 1)
  ∧ (mkPost ⟨7, 9, "t", "x"⟩ 1).postId = 1
  ∧ (Response.mk true 0).id ≠ 1 :=
  ⟨rfl, rfl, by decide⟩

/-- C6, amended: in the `src/server.go` revision, every successful Create
response carries `Success = true` and the `Id` equal to the `postId` of the
post the call inserted. -/
theorem createPost_response_id (req : CreateRequest) (prevId : Nat)
    (trace : List Attempt) (resp : Response) (p : Post)
    (h : createPostLoop req prevId trace = .success resp p) :
    resp.success = true ∧ resp.id = p.postId := by
  induction trace generalizing prevId with
  | nil => simp [createPostLoop] at h
  | cons a rest ih =>
    rw [createPostLoop] at h
    cases hf : a.find <;> rw [hf] at h
    case failure => simp at h
    case noDocs =>
      cases hi : a.insert <;> rw [hi] at h
      case inserted =>
        simp only [CreateOutcome.success.injEq] at h
        rw [← h.1, ← h.2]
        exact ⟨rfl, rfl⟩
      case dupKey => exact ih prevId h
      case failure => simp at h
    case found m =>
      cases hi : a.insert <;> rw [hi] at h
      case inserted =>
        simp only [CreateOutcome.success.injEq] at h
        rw [← h.1, ← h.2]
        exact ⟨rfl, rfl⟩
      case dupKey => exact ih (m + 1) h
      case failure => simp at h

/-- C6, witness: the theorem applied to a one-attempt run on an empty
blog. -/
theorem createPost_response_id_witness :
    (Response.mk true 1).success = true
  ∧ (Response.mk true 1).id = (mkPost ⟨7, 9, "t", "x"⟩ 1).postId :=
  createPost_response_id ⟨7, 9, "t", "x"⟩ 1 [⟨.noDocs, .inserted⟩] ⟨true, 1⟩
    (mkPost ⟨7, 9, "t", "x"⟩ 1) rfl

/-- C2, counterexample: after a duplicate-key failure of candidate 6, the
fresh query answers `ErrNoDocuments`; re-deriving the candidate from that
fresh answer gives 1, but the code keeps the stale `newPostId` and inserts
6. -/
theorem createPost_retry_cex :
    createPost ⟨7, 9, "t", "x"⟩ [⟨.found 5, .dupKey⟩, ⟨.noDocs, .inserted⟩]
      = .success ⟨true, 6⟩ (mkPost ⟨7, 9, "t", "x"⟩ 6)
  ∧ specFreshCandidate .noDocs = 1
  ∧ (6 : Nat) ≠ 1 :=
  ⟨rfl, rfl, by decide⟩

theorem createPostLoop_dups_aux (req : CreateRequest) (last : Attempt)
    (hlf : last.find ≠ .failure) (hli : last.insert = .inserted) :
    ∀ (dups : List Attempt) (prevId : Nat),
      (∀ a ∈ dups, a.find ≠ .failure ∧ a.insert = .dupKey) →
      ∃ id, createPostLoop req prevId (dups ++ [last])
        = .success ⟨true, id⟩ (mkPost req id) := by
  intro dups
  induction dups with
  | nil =>
    intro prevId _
    cases hf : last.find with
    | failure => exact absurd hf hlf
    | noDocs => exact ⟨prevId, by rw [List.nil_append, createPostLoop, hf, hli]⟩
    | found m => exact ⟨m + 1, by rw [List.nil_append, createPostLoop, hf, hli]⟩
  | cons a dups ih =>
    intro prevId hd
    obtain ⟨haf, hai⟩ := hd a (List.mem_cons_self a dups)
    have hd' : ∀ x ∈ dups, x.find ≠ .failure ∧ x.insert = .dupKey :=
      fun x hx => hd x (List.mem_cons_of_mem _ hx)
    cases hf : a.find with
    | failure => exact absurd hf haf
    | noDocs =>
      obtain ⟨id, hid⟩ := ih prevId hd'
      exact ⟨id, by rw [List.cons_append, createPostLoop, hf, hai]; exact hid⟩
    | found m =>
      obtain ⟨id, hid⟩ := ih (m + 1) hd'
      exact ⟨id, by rw [List.cons_append, createPostLoop, hf, hai]; exact hid⟩

/-- C2, amended: a duplicate-key insert failure retries the whole sequence;
after a retry the candidate is the fresh query's maximum plus one when that
query finds a document, and is the kept previous candidate (not an
increment) when the fresh query finds none; a run of duplicate-key attempts
followed by a successful insert ends in success, surfacing no conflict; any
other driver failure returns `errInternal` at once, ignoring the rest of
the trace. -/
theorem createPost_retry_protocol (req : CreateRequest) (prevId m : Nat)
    (rest dups : List Attempt) (last : Attempt) :
    (createPostLoop req prevId (⟨.found m, .dupKey⟩ :: rest)
        = createPostLoop req (specFreshCandidate (.found m)) rest)
  ∧ (createPostLoop req prevId (⟨.noDocs, .dupKey⟩ :: rest)
        = createPostLoop req prevId rest)
  ∧ (∀ f, createPostLoop req prevId (⟨f, .failure⟩ :: rest) = .internalFailure)
  ∧ (∀ ins, createPostLoop req prevId (⟨.failure, ins⟩ :: rest) = .internalFailure)
  ∧ ((∀ a ∈ dups, a.find ≠ .failure ∧ a.insert = .dupKey) →
      last.find ≠ .failure → last.insert = .inserted →
      ∃ id, createPost req (dups ++ [last]) = .success ⟨true, id⟩ (mkPost req id)) :=
  ⟨rfl, rfl, fun f => by cases f <;> rfl, fun _ => rfl,
   fun hd hlf hli => createPostLoop_dups_aux req last hlf hli dups 1 hd⟩

theorem sortByPostIdDesc_eq_nil_iff (l : List Post) :
    sortByPostIdDesc l = [] ↔ l = [] := by
  constructor <;> intro h
  · have hlen := List.length_insertionSort postDesc l
    rw [sortByPostIdDesc] at h
    rw [h] at hlen
    exact List.length_eq_zero.mp hlen.symm
  · rw [h]; rfl

theorem findMaxPostId_eq_none_iff (store : List Post) (b : Nat) :
    findMaxPostId store b = none ↔ ∀ q ∈ store, q.blogId ≠ b := by
  unfold findMaxPostId
  rw [Option.map_eq_none', List.head?_eq_none_iff, sortByPostIdDesc_eq_nil_iff,
    List.filter_eq_nil_iff]
  simp

theorem findMaxPostId_spec (store : List Post) (b m : Nat)
    (h : findMaxPostId store b = some m) :
    (∃ q ∈ store, q.blogId = b ∧ q.postId = m)
  ∧ (∀ q ∈ store, q.blogId = b → q.postId ≤ m) := by
  unfold findMaxPostId at h
  obtain ⟨q0, hq0, hm⟩ := Option.map_eq_some'.mp h
  have hsort : List.Sorted postDesc
      (sortByPostIdDesc (store.filter (fun p => p.blogId == b))) :=
    List.sorted_insertionSort postDesc _
  have hperm : List.Perm (sortByPostIdDesc (store.filter (fun p => p.blogId == b)))
      (store.filter (fun p => p.blogId == b)) :=
    List.perm_insertionSort postDesc _
  obtain ⟨t, ht⟩ : ∃ t, sortByPostIdDesc (store.filter (fun p => p.blogId == b)) = q0 :: t := by
    cases hs : sortByPostIdDesc (store.filter (fun p => p.blogId == b)) with
    | nil => rw [hs] at hq0; simp at hq0
    | cons x t =>
      rw [hs] at hq0
      simp only [List.head?_cons, Option.some.injEq] at hq0
      exact ⟨t, by rw [hq0]⟩
  have hq0mem : q0 ∈ store.filter (fun p => p.blogId == b) :=
    hperm.mem_iff.mp (ht ▸ List.mem_cons_self q0 t)
  have hmax : ∀ q ∈ store.filter (fun p => p.blogId == b), q.postId ≤ q0.postId := by
    intro q hq
    have hq' : q ∈ q0 :: t := ht ▸ hperm.mem_iff.mpr hq
    rcases List.mem_cons.mp hq' with h1 | h1
    · rw [h1]
    · have hsc := List.sorted_cons.mp (ht ▸ hsort)
      exact hsc.1 q h1
  obtain ⟨hq0store, hq0b⟩ := List.mem_filter.mp hq0mem
  constructor
  · exact ⟨q0, hq0store, by simpa using hq0b, hm⟩
  · intro q hq hqb
    have : q ∈ store.filter (fun p => p.blogId == b) :=
      List.mem_filter.mpr ⟨hq, by simp [hqb]⟩
    exact hm ▸ hmax q this

/-- C1: the candidate identifier of a Create call is derived from the
single maximum-`postId` query (descending sort, identifier projection): 1
when no post of the blog exists, the found maximum plus one otherwise; and
the loop's first insert uses exactly that candidate. -/
theorem createPost_candidate (store : List Post) (b : Nat) :
    ((∀ q ∈ store, q.blogId ≠ b) → nextPostIdCandidate store b = 1)
  ∧ (∀ q ∈ store, q.blogId = b → q.postId < nextPostIdCandidate store b)
  ∧ ((∃ q ∈ store, q.blogId = b) →
      ∃ q ∈ store, q.blogId = b ∧ nextPostIdCandidate store b = q.postId + 1)
  ∧ (∀ req rest,
      createPostLoop req 1 (⟨storeFind store b, .inserted⟩ :: rest)
        = .success ⟨true, nextPostIdCandidate store b⟩
            (mkPost req (nextPostIdCandidate store b))) := by
  refine ⟨?_, ?_, ?_, ?_⟩
  · intro h
    unfold nextPostIdCandidate
    rw [(findMaxPostId_eq_none_iff store b).mpr h]
  · intro q hq hqb
    unfold nextPostIdCandidate
    cases hfm : findMaxPostId store b with
    | none => exact absurd hqb ((findMaxPostId_eq_none_iff store b).mp hfm q hq)
    | some m => exact Nat.lt_succ_of_le ((findMaxPostId_spec store b m hfm).2 q hq hqb)
  · rintro ⟨q, hq, hqb⟩
    cases hfm : findMaxPostId store b with
    | none => exact absurd hqb ((findMaxPostId_eq_none_iff store b).mp hfm q hq)
    | some m =>
      obtain ⟨⟨q', hq', hq'b, hq'id⟩, _⟩ := findMaxPostId_spec store b m hfm
      refine ⟨q', hq', hq'b, ?_⟩
      unfold nextPostIdCandidate
      rw [hfm, hq'id]
  · intro req rest
    unfold storeFind nextPostIdCandidate
    cases hfm : findMaxPostId store b <;> rfl

/-- C10: in `src/blogserver/blogserver.go`, `convertToContents` returns an
empty list for every input, so every successful `GetPosts` call of that
revision returns an empty page. -/
theorem getPostsOld_list_empty (matcher : List Char → List Char → Bool)
    (store : List Post) (req : SearchRequest) (posts : List α) :
    convertToContents posts = [] ∧ (getPostsOld matcher store req).list = [] :=
  ⟨rfl, rfl⟩

/-- C4, counterexample: in `src/blogserver/blogserver.go`, with one stored
post titled `dog` and the filter `cat`, the count runs before the title
condition is appended, so `total` is 1 while 0 posts match the filtered
query. -/
theorem getPostsOld_total_cex :
    (getPostsOld mongoRegexMatch [⟨1, 1, 1, "dog", ""⟩] ⟨1, "cat", 0, 10⟩).total = 1
  ∧ (([⟨1, 1, 1, "dog", ""⟩] : List Post).filter
        (matchPredOld mongoRegexMatch ⟨1, "cat", 0, 10⟩)).length = 0
  ∧ (1 : Nat) ≠ 0 :=
  ⟨rfl, rfl, by decide⟩

/-- C4, amended: in the `src/server.go` revision, `total` counts exactly
the posts matching the `blogId` plus title-filter predicate, and is
independent of `start`/`end`; the older revision counts before the filter
is appended. -/
theorem getPosts_total_counts_filter (matcher : List Char → List Char → Bool)
    (store : List Post) (req : SearchRequest) (s' e' : Nat) :
    (getPosts matcher store req).total = (store.filter (matchPred matcher req)).length
  ∧ (getPosts matcher store ⟨req.blogId, req.filter, s', e'⟩).total
      = (getPosts matcher store req).total :=
  ⟨rfl, rfl⟩

/-- C5, counterexample: in `src/blogserver/blogserver.go`, with one stored
matching post and the page `[0, 10)`, the returned page is empty instead of
the one-element sorted page the claim describes. -/
theorem getPostsOld_page_cex :
    (getPostsOld mongoRegexMatch [⟨1, 1, 1, "dog", ""⟩] ⟨1, "", 0, 10⟩).list = []
  ∧ (((sortByPostIdDesc (([⟨1, 1, 1, "dog", ""⟩] : List Post).filter
        (matchPredOld mongoRegexMatch ⟨1, "", 0, 10⟩))).drop 0).take 10).map postToContent
      = [⟨1, 1, "dog", "", 0⟩]
  ∧ ([] : List Content) ≠ [⟨1, 1, "dog", "", 0⟩] :=
  ⟨rfl, rfl, by decide⟩

/-- C5, amended: in the `src/server.go` revision, the returned page is the
matching posts sorted by `postId` descending with the first `start`
skipped and at most `end - start` returned (half-open, converted per
post); in particular `(0, 0)` yields an empty page and `(2, 5)` at most 3
posts.  The older revision ignores the pagination options and converts
every page to the empty list. -/
theorem getPosts_page_spec (matcher : List Char → List Char → Bool)
    (store : List Post) (req : SearchRequest) :
    ((getPosts matcher store req).list
        = (((sortByPostIdDesc (store.filter (matchPred matcher req))).drop req.start).take
            ((req.stop : Int) - (req.start : Int)).toNat).map postToContent)
  ∧ (getPosts matcher store req).list.length
      ≤ ((req.stop : Int) - (req.start : Int)).toNat
  ∧ List.Pairwise (fun c1 c2 => c2.postId ≤ c1.postId) (getPosts matcher store req).list
  ∧ (∀ c ∈ (getPosts matcher store req).list,
      ∃ p, p ∈ store ∧ matchPred matcher req p = true ∧ c = postToContent p)
  ∧ (getPosts matcher store ⟨req.blogId, req.filter, 0, 0⟩).list = []
  ∧ (getPosts matcher store ⟨req.blogId, req.filter, 2, 5⟩).list.length ≤ 3 := by
  have hsort : List.Pairwise postDesc
      (sortByPostIdDesc (store.filter (matchPred matcher req))) :=
    List.sorted_insertionSort postDesc _
  have hsub : (((sortByPostIdDesc (store.filter (matchPred matcher req))).drop
        req.start).take ((req.stop : Int) - (req.start : Int)).toNat).Sublist
      (sortByPostIdDesc (store.filter (matchPred matcher req))) :=
    (List.take_sublist _ _).trans (List.drop_sublist _ _)
  refine ⟨rfl, ?_, ?_, ?_, rfl, ?_⟩
  · show (List.map postToContent _).length ≤ _
    rw [List.length_map, List.length_take]
    exact min_le_left _ _
  · show List.Pairwise _ (List.map postToContent _)
    exact List.pairwise_map.mpr (List.Pairwise.sublist hsub hsort)
  · intro c hc
    obtain ⟨p, hp, rfl⟩ := List.mem_map.mp hc
    have hp2 : p ∈ sortByPostIdDesc (store.filter (matchPred matcher req)) :=
      hsub.mem hp
    have hp3 : p ∈ store.filter (matchPred matcher req) :=
      (List.perm_insertionSort postDesc _).mem_iff.mp hp2
    obtain ⟨hps, hpm⟩ := List.mem_filter.mp hp3
    exact ⟨p, hps, hpm, rfl⟩
  · show (List.map postToContent _).length ≤ 3
    rw [List.length_map, List.length_take]
    exact le_trans (min_le_left _ _) (by decide : ((5 : Int) - (2 : Int)).toNat ≤ 3)

/-! ## Lemmas about the regex normalization -/

theorem indexOfTok_eq_zero_iff (g : List Char) :
    indexOfTok g = 0 ↔ tok.isPrefixOf g = true := by
  cases g with
  | nil => simp [indexOfTok, tok, List.isPrefixOf]
  | cons c rest =>
    rw [indexOfTok]
    by_cases h : tok.isPrefixOf (c :: rest)
    · simp [h]
    · rw [if_neg h]
      by_cases h2 : indexOfTok rest = -1
      · rw [if_pos h2]
        simp [h]
      · rw [if_neg h2]
        exact iff_of_false (fun hc => h2 (by omega)) (by simp [h])

theorem isPrefixOf_tok_single (c : Char) : tok.isPrefixOf [c] = false := by
  simp [tok, List.isPrefixOf]

theorem isPrefixOf_tok_pair (c d : Char) (xs : List Char) :
    tok.isPrefixOf (c :: d :: xs) = true ↔ (c = '.' ∧ d = '*') := by
  have hv : tok.isPrefixOf (c :: d :: xs) = (('.' == c) && ('*' == d)) := by
    show List.isPrefixOf ['.', '*'] (c :: d :: xs) = _
    rw [List.isPrefixOf, List.isPrefixOf, List.isPrefixOf, Bool.and_true]
  rw [hv]
  simp only [Bool.and_eq_true, beq_iff_eq]
  constructor
  · rintro ⟨h1, h2⟩; exact ⟨h1.symm, h2.symm⟩
  · rintro ⟨h1, h2⟩; exact ⟨h1.symm, h2.symm⟩

theorem lastIndexOfTok_singleton (c : Char) : lastIndexOfTok [c] = -1 := by
  rw [lastIndexOfTok, show lastIndexOfTok ([] : List Char) = -1 from rfl,
    isPrefixOf_tok_single]
  simp

theorem lastIndexOfTok_eq_iff (g : List Char) (hg : 1 ≤ g.length) :
    lastIndexOfTok g = (g.length : Int) - 2 ↔ (g.length = 1 ∨ endsTok g = true) := by
  induction g with
  | nil => simp at hg
  | cons c rest ih =>
    cases rest with
    | nil =>
      rw [lastIndexOfTok_singleton]
      exact iff_of_true (by simp) (Or.inl (by simp))
    | cons d rest' =>
      have hlen : 1 ≤ (d :: rest').length := by simp
      rw [lastIndexOfTok]
      by_cases hr : lastIndexOfTok (d :: rest') ≠ -1
      · rw [if_pos hr]
        cases rest' with
        | nil => exact absurd (lastIndexOfTok_singleton d) hr
        | cons e rest'' =>
          have hiff := ih hlen
          rw [endsTok]
          constructor
          · intro hv
            refine Or.inr ?_
            have hv' : lastIndexOfTok (d :: e :: rest'')
                = ((d :: e :: rest'').length : Int) - 2 := by
              simp only [List.length_cons] at hv ⊢
              push_cast at hv ⊢
              omega
            rcases hiff.mp hv' with h1 | h1
            · exact absurd h1 (by simp)
            · exact h1
          · rintro (h1 | h1)
            · exact absurd h1 (by simp)
            · have hv' := hiff.mpr (Or.inr h1)
              simp only [List.length_cons] at hv' ⊢
              push_cast at hv' ⊢
              omega
      · push_neg at hr
        rw [if_neg (by simp [hr])]
        by_cases hp : tok.isPrefixOf (c :: d :: rest')
        · rw [if_pos hp]
          obtain ⟨hc, hd⟩ := (isPrefixOf_tok_pair c d rest').mp hp
          cases rest' with
          | nil =>
            subst hc hd
            exact iff_of_true (by decide) (Or.inr (by decide))
          | cons e rest'' =>
            have hiff := ih hlen
            refine iff_of_false ?_ ?_
            · simp only [List.length_cons]
              push_cast
              omega
            · rintro (h1 | h1)
              · exact absurd h1 (by simp)
              · rw [endsTok] at h1
                have hv' := hiff.mpr (Or.inr h1)
                rw [hr] at hv'
                simp only [List.length_cons] at hv'
                push_cast at hv'
                omega
        · rw [if_neg hp]
          cases rest' with
          | nil =>
            refine iff_of_false ?_ ?_
            · simp only [List.length_cons]
              push_cast
              omega
            · rintro (h1 | h1)
              · exact absurd h1 (by simp)
              · rw [endsTok] at h1
                exact hp ((isPrefixOf_tok_pair c d []).mpr (by simpa using h1))
          | cons e rest'' =>
            have hiff := ih hlen
            refine iff_of_false ?_ ?_
            · simp only [List.length_cons]
              push_cast
              omega
            · rintro (h1 | h1)
              · exact absurd h1 (by simp)
              · rw [endsTok] at h1
                have hv' := hiff.mpr (Or.inr h1)
                rw [hr] at hv'
                simp only [List.length_cons] at hv'
                push_cast at hv'
                omega

theorem replacePercent_length (f : List Char) :
    f.length ≤ (replacePercent f).length := by
  induction f with
  | nil => simp [replacePercent]
  | cons c rest ih =>
    rw [replacePercent, List.length_append]
    by_cases h : c = '%' <;> simp [h, tok] <;> omega

/-- C3, counterexample: the one-byte pattern `c` does not end with the
token, so the claim appends it (`.*c.*`), but the code compares the last
occurrence index -1 with `len - 2 = -1` and appends nothing, producing
`.*c`. -/
theorem buildRegexFilter_cex :
    buildRegexFilter ['c'] = ['.', '*', 'c']
  ∧ claimNormalize ['c'] = ['.', '*', 'c', '.', '*']
  ∧ buildRegexFilter ['c'] ≠ claimNormalize ['c'] :=
  ⟨rfl, rfl, by decide⟩

/-- C3, amended: for every non-empty pattern, `buildRegexFilter` replaces
every `%` with the token, prepends the token when the result does not
start with it, and appends the token when the result has at least two
bytes and does not end with it — so a one-byte wildcard-free pattern gets
no trailing token, and otherwise the claim's rule holds (`cat` becomes
`.*cat.*`, `%cat` is not re-prefixed). -/
theorem buildRegexFilter_eq_spec (f : List Char) (h : f ≠ []) :
    buildRegexFilter f = buildRegexFilterSpec f := by
  have hg1 : 1 ≤ (replacePercent f).length := by
    have h1 := replacePercent_length f
    have h2 : 0 < f.length := List.length_pos.mpr h
    omega
  have hfront : (if indexOfTok (replacePercent f) ≠ 0 then tok else [])
      = (if tok.isPrefixOf (replacePercent f) then [] else tok) := by
    by_cases hp : tok.isPrefixOf (replacePercent f)
    · simp [hp, (indexOfTok_eq_zero_iff _).mpr hp]
    · have hz : indexOfTok (replacePercent f) ≠ 0 :=
        fun hc => hp ((indexOfTok_eq_zero_iff _).mp hc)
      simp [hp, hz]
  have hback :
      (if lastIndexOfTok (replacePercent f) ≠ ((replacePercent f).length : Int) - 2
        then tok else [])
      = (if 2 ≤ (replacePercent f).length ∧ endsTok (replacePercent f) = false
        then tok else []) := by
    have hiff := lastIndexOfTok_eq_iff (replacePercent f) hg1
    by_cases he : lastIndexOfTok (replacePercent f) = ((replacePercent f).length : Int) - 2
    · rw [if_neg (by simpa using he), if_neg]
      rcases hiff.mp he with h1 | h1
      · intro hc; omega
      · intro hc; rw [hc.2] at h1; exact Bool.false_ne_true h1
    · rw [if_pos he, if_pos]
      refine ⟨?_, ?_⟩
      · rcases Nat.lt_or_ge (replacePercent f).length 2 with h2 | h2
        · exact absurd (hiff.mpr (Or.inl (by omega))) he
        · exact h2
      · cases hE : endsTok (replacePercent f) with
        | false => rfl
        | true => exact absurd (hiff.mpr (Or.inr hE)) he
  show (if indexOfTok (replacePercent f) ≠ 0 then tok else []) ++ replacePercent f
      ++ (if lastIndexOfTok (replacePercent f) ≠ ((replacePercent f).length : Int) - 2
        then tok else [])
    = (if tok.isPrefixOf (replacePercent f) then [] else tok) ++ replacePercent f
      ++ (if 2 ≤ (replacePercent f).length ∧ endsTok (replacePercent f) = false
        then tok else [])
  rw [hfront, hback]

/-- C3, witness: the amended rule at the pattern `cat`. -/
theorem buildRegexFilter_eq_spec_witness :
    buildRegexFilter ['c', 'a', 't'] = buildRegexFilterSpec ['c', 'a', 't'] :=
  buildRegexFilter_eq_spec ['c', 'a', 't'] (by decide)

end PuzzleBlog
